import Mathlib

/-!
Verification of the `masteren/dailyproject` repository against its
natural-language specification.

The repository holds two applications:
* a Flask pantry/recipe web app (`smallapp/app.py`, `smallapp/db.py`,
  `smallapp/services/openai_vision.py`) backed by SQLite, and
* a CLI student grade manager (`student_grade_system.py`) backed by a JSON
  file.

This file gives a shallow embedding of the data model and of the operations
the claims are about, translated from the Python source:
* the `pantry_items` table becomes a list of rows plus an AUTOINCREMENT
  counter; the SQL statements of `db.py` become pure functions on that state;
* the request handlers of `app.py` become pure functions from their inputs
  (form fields, uploaded bytes, cache and external-call outcomes) to a
  response value;
* `StudentManager` becomes a record of an association list of students and
  the serialized contents of the JSON file.

Python floats appearing in scores are modelled by exact rationals, and the
Python string helpers `str.strip` and `str.isdigit` by `pyStrip` and
`pyIsDigit` over the character list, on their ASCII behaviour.
-/

/-! ### Pantry database state (`smallapp/db.py`)

`init_db` creates `pantry_items (id INTEGER PRIMARY KEY AUTOINCREMENT,
user_id, name, quantity, unit, expiry_date, UNIQUE(user_id, name))`.
A database state is the list of rows in insertion (rowid) order together
with the next AUTOINCREMENT id. -/

structure PantryRow where
  id : Nat
  user_id : Nat
  name : String
  quantity : Int
  unit : String
  expiry_date : Option String
deriving Repr, DecidableEq

structure PantryDB where
  rows : List PantryRow
  nextId : Nat
deriving Repr, DecidableEq

/-- Row matches a given rowid. -/
def idMatch (i : Nat) (r : PantryRow) : Bool :=
  r.id == i

/-- Row matches the `UNIQUE(user_id, name)` key. -/
def keyMatch (u : Nat) (n : String) (r : PantryRow) : Bool :=
  r.user_id == u && r.name == n

/-- Row matches the `WHERE id = ? AND user_id = ?` clause used by
`update_pantry_item` and `delete_pantry_item`. -/
def whereMatch (i u : Nat) (r : PantryRow) : Bool :=
  r.id == i && r.user_id == u

/-- `db.upsert_pantry_item` (db.py:373-393):
`INSERT INTO pantry_items ... ON CONFLICT(user_id, name) DO UPDATE SET
quantity = quantity + excluded.quantity, unit = excluded.unit,
expiry_date = excluded.expiry_date`.  In the `DO UPDATE` clause the bare
`quantity` is the existing row's value, so on conflict the stored quantity
becomes `old + new` while unit and expiry date are overwritten; otherwise a
fresh row is appended with the next AUTOINCREMENT id. -/
def upsert_pantry_item (db : PantryDB) (user : Nat) (name : String)
    (quantity : Int) (unit : String) (expiry_date : Option String) : PantryDB :=
  if db.rows.any (keyMatch user name) then
    { db with rows := db.rows.map (fun r =>
        if keyMatch user name r then
          { r with quantity := r.quantity + quantity, unit := unit,
                   expiry_date := expiry_date }
        else r) }
  else
    { rows := db.rows ++ [⟨db.nextId, user, name, quantity, unit, expiry_date⟩],
      nextId := db.nextId + 1 }

/-- `db.update_pantry_item` (db.py:396-413):
`UPDATE pantry_items SET name = ?, quantity = ?, unit = ?, expiry_date = ?
WHERE id = ? AND user_id = ?`.  The `UNIQUE(user_id, name)` index declared
in `init_db` makes SQLite abort the statement (leaving the table unchanged)
when the new name would duplicate the key of another row of the same user;
otherwise the matching row, if any, is rewritten. -/
def update_pantry_item (db : PantryDB) (user item_id : Nat) (name : String)
    (quantity : Int) (unit : String) (expiry_date : Option String) : PantryDB :=
  if db.rows.any (whereMatch item_id user) &&
      db.rows.any (fun r => keyMatch user name r && !(r.id == item_id)) then
    db
  else
    { db with rows := db.rows.map (fun r =>
        if whereMatch item_id user r then
          { r with name := name, quantity := quantity, unit := unit,
                   expiry_date := expiry_date }
        else r) }

/-- `db.delete_pantry_item` (db.py:416-422):
`DELETE FROM pantry_items WHERE id = ? AND user_id = ?`. -/
def delete_pantry_item (db : PantryDB) (user item_id : Nat) : PantryDB :=
  { db with rows := db.rows.filter (fun r => !(whereMatch item_id user r)) }

/-- Insert a row into a list kept in decreasing rowid order. -/
def insertByIdDesc (r : PantryRow) : List PantryRow → List PantryRow
  | [] => [r]
  | x :: xs => if x.id ≤ r.id then r :: x :: xs else x :: insertByIdDesc r xs

/-- Sort rows by decreasing rowid (`ORDER BY id DESC`). -/
def sortByIdDesc : List PantryRow → List PantryRow
  | [] => []
  | x :: xs => insertByIdDesc x (sortByIdDesc xs)

/-- `db.fetch_pantry_items` (db.py:359-370):
`SELECT id, name, quantity, unit, expiry_date FROM pantry_items
WHERE user_id = ? ORDER BY id DESC`. -/
def fetch_pantry_items (db : PantryDB) (user : Nat) : List PantryRow :=
  sortByIdDesc (db.rows.filter (fun r => r.user_id == user))

theorem insertByIdDesc_perm (r : PantryRow) (l : List PantryRow) :
    (insertByIdDesc r l).Perm (r :: l) := by
  induction l with
  | nil => simp [insertByIdDesc]
  | cons x xs ih =>
    by_cases h : x.id ≤ r.id
    · simp [insertByIdDesc, h]
    · simp only [insertByIdDesc, h, if_neg]
      exact (ih.cons x).trans (List.Perm.swap r x xs)

theorem sortByIdDesc_perm (l : List PantryRow) :
    (sortByIdDesc l).Perm l := by
  induction l with
  | nil => simp [sortByIdDesc]
  | cons x xs ih =>
    exact (insertByIdDesc_perm x (sortByIdDesc xs)).trans (ih.cons x)

/-! ### Pantry operations as a transition system

The pantry table is touched only through `upsert_pantry_item`,
`update_pantry_item` and `delete_pantry_item` (db.py); a reachable state is
any state produced from the empty table (AUTOINCREMENT starts at 1) by a
sequence of these operations. -/

inductive PantryOp where
  | upsert (user : Nat) (name : String) (quantity : Int) (unit : String)
      (expiry_date : Option String)
  | update (user item_id : Nat) (name : String) (quantity : Int)
      (unit : String) (expiry_date : Option String)
  | delete (user item_id : Nat)
deriving Repr

def applyPantryOp (db : PantryDB) : PantryOp → PantryDB
  | .upsert u n q un e => upsert_pantry_item db u n q un e
  | .update u i n q un e => update_pantry_item db u i n q un e
  | .delete u i => delete_pantry_item db u i

def emptyPantryDB : PantryDB := ⟨[], 1⟩

inductive PantryReachable : PantryDB → Prop where
  | init : PantryReachable emptyPantryDB
  | step (db : PantryDB) (op : PantryOp) : PantryReachable db →
      PantryReachable (applyPantryOp db op)

/-- State invariant maintained by SQLite: rowids are unique, the
`UNIQUE(user_id, name)` key is unique, and every rowid is below the
AUTOINCREMENT counter. -/
def PantryInv (db : PantryDB) : Prop :=
  (∀ i, db.rows.countP (idMatch i) ≤ 1) ∧
  (∀ u n, db.rows.countP (keyMatch u n) ≤ 1) ∧
  (∀ r ∈ db.rows, r.id < db.nextId)

/-! ### Recipe scoring (`smallapp/app.py`, the `/recipes` route)

The route scores each recipe from its ingredient list (name and role per
ingredient), its nutrition facts, and the set of pantry item names of the
current user.  Python float arithmetic on the match rate is modelled by
exact rationals; `int(...)` on these non-negative values is `Int.floor`. -/

structure RecipeIngredient where
  name : String
  role : String
deriving Repr, DecidableEq

structure NutritionFacts where
  protein : ℚ
  veg_score : ℚ
  kcal : ℚ
  fat : ℚ
  carb : ℚ
deriving Repr, DecidableEq

/-- The nutrition block of the `/recipes` route (app.py:559-570): four
+10 bonuses, one -10 malus, clamped to `[0, 40]`. -/
def healthScore (n : NutritionFacts) : Int :=
  max 0 (min 40
    ((if n.protein ≥ 30 then (10 : Int) else 0) +
     (if n.veg_score ≥ 2 then 10 else 0) +
     (if n.kcal ≤ 500 then 10 else 0) +
     (if n.fat ≤ 15 then 10 else 0) -
     (if n.carb ≥ 70 then 10 else 0)))

/-- `required = [ing for ing in ingredients if ing.get("role") == "required"]`,
falling back to all ingredients when empty (app.py:545-547). -/
def requiredIngredients (ings : List RecipeIngredient) : List RecipeIngredient :=
  let req := ings.filter (fun i => i.role == "required")
  if req.isEmpty then ings else req

/-- `required_names = {ing["name"] for ing in required}` is a set, so its
size counts distinct names. -/
def requiredNameCount (ings : List RecipeIngredient) : Nat :=
  ((requiredIngredients ings).map (fun i => i.name)).dedup.length

/-- `matched_required = [ing for ing in required if ing["name"] in pantry_names]`. -/
def matchedRequired (ings : List RecipeIngredient) (pantry : List String) :
    List RecipeIngredient :=
  (requiredIngredients ings).filter (fun i => pantry.contains i.name)

/-- `total_required = max(1, len(required_names))`. -/
def totalRequired (ings : List RecipeIngredient) : Nat :=
  max 1 (requiredNameCount ings)

/-- `match_rate = len(matched_required) / total_required`. -/
def matchRate (ings : List RecipeIngredient) (pantry : List String) : ℚ :=
  ((matchedRequired ings pantry).length : ℚ) / (totalRequired ings : ℚ)

/-- `missing_required = total_required - len(matched_required)` (Python int
subtraction, so an `Int`). -/
def missingRequired (ings : List RecipeIngredient) (pantry : List String) : Int :=
  (totalRequired ings : Int) - ((matchedRequired ings pantry).length : Int)

/-- `match_score = max(0, min(60, int(match_rate * 60) - missing_required * 8))`. -/
def matchScore (ings : List RecipeIngredient) (pantry : List String) : Int :=
  max 0 (min 60 (⌊matchRate ings pantry * 60⌋ - missingRequired ings pantry * 8))

/-- The grade buckets at app.py:575-582. -/
def letterGrade (ts : Int) : String :=
  if ts ≥ 85 then "A" else if ts ≥ 70 then "B" else if ts ≥ 55 then "C" else "D"

structure ScoredRecipe where
  match_count : Nat
  match_rate_pct : Int
  missing_required : Int
  health_score : Int
  match_score : Int
  total_score : Int
  grade : String
deriving Repr, DecidableEq

/-- The per-recipe body of the `/recipes` loop (app.py:545-595): `none` when
the `match_rate < 0.6 and missing_required > 2` filter skips the recipe,
otherwise the computed score fields. -/
def scoreRecipe (ings : List RecipeIngredient) (n : NutritionFacts)
    (pantry : List String) : Option ScoredRecipe :=
  if matchRate ings pantry < 3/5 ∧ missingRequired ings pantry > 2 then
    none
  else
    some
      { match_count := (matchedRequired ings pantry).length,
        match_rate_pct := ⌊matchRate ings pantry * 100⌋,
        missing_required := missingRequired ings pantry,
        health_score := healthScore n,
        match_score := matchScore ings pantry,
        total_score := matchScore ings pantry + healthScore n,
        grade := letterGrade (matchScore ings pantry + healthScore n) }

/-! ### `/api/vision/ingredients` (app.py:410-474)

The handler reads the uploaded bytes, prefers the demo cache when the
`X-Demo-Image` header is set and a cached entry exists, calls
`recognize_ingredients_from_bytes`, and maps the exception types of
`services/openai_vision.py` to HTTP statuses, falling back to the cache.
The outcome of the external call (which exception, if any, was raised) is
an input of the embedded function. -/

inductive VisionOutcome where
  | ok (ingredients : List String)
  | missingAPIKey
  | timeout
  | nonJsonResponse
  | visionError
  | otherError
deriving Repr, DecidableEq

structure VisionResponse where
  status : Nat
  body_ingredients : Option (List String)
  error_code : Option String
  cache_status : Option String
deriving Repr, DecidableEq

def vision_ingredients (file : Option (List Nat)) (preferCache : Bool)
    (cached : Option (List String)) (callResult : VisionOutcome) :
    VisionResponse :=
  match file with
  | none => ⟨400, none, some "missing_image", none⟩
  | some bytes =>
    if bytes.isEmpty then ⟨400, none, some "empty_image", none⟩
    else if preferCache && cached.isSome then
      ⟨200, cached, none, some "Cached"⟩
    else
      match callResult with
      | .ok ings => ⟨200, some ings, none, some "Live"⟩
      | .missingAPIKey =>
        match cached with
        | some ings => ⟨200, some ings, none, some "Cached"⟩
        | none => ⟨500, none, some "missing_api_key", none⟩
      | .timeout =>
        match cached with
        | some ings => ⟨200, some ings, none, some "Cached"⟩
        | none => ⟨504, none, some "timeout", none⟩
      | .nonJsonResponse =>
        match cached with
        | some ings => ⟨200, some ings, none, some "Cached"⟩
        | none => ⟨502, none, some "non_json_response", none⟩
      | .visionError =>
        match cached with
        | some ings => ⟨200, some ings, none, some "Cached"⟩
        | none => ⟨502, none, some "vision_error", none⟩
      | .otherError =>
        match cached with
        | some ings => ⟨200, some ings, none, some "Cached"⟩
        | none => ⟨500, none, some "unknown_error", none⟩

/-! ### `/pantry/add` (app.py:384-400)

Form fields are stripped, then validated with Python truthiness and
`str.isdigit()`; on success the quantity is parsed as a decimal integer and
the item upserted; in every case the handler redirects to the pantry page.
`str.strip` and `str.isdigit` are modelled on their ASCII behaviour. -/

structure PantryAddForm where
  name : String
  quantity : String
  unit : String
  expiry_date : String
deriving Repr, DecidableEq

/-- ASCII whitespace, as removed by Python `str.strip()`. -/
def isPySpace (c : Char) : Bool :=
  c == ' ' || c == '\t' || c == '\n' || c == '\r'

/-- Python `s.strip()`: drop leading and trailing whitespace. -/
def pyStrip (s : String) : String :=
  ⟨((s.data.dropWhile isPySpace).reverse.dropWhile isPySpace).reverse⟩

/-- Python `s.isdigit()`: true iff `s` is non-empty and all characters are
digits. -/
def pyIsDigit (s : String) : Bool :=
  !s.data.isEmpty && s.data.all Char.isDigit

/-- Python `int(s)` on a string of decimal digits. -/
def pyParseNat (s : String) : Nat :=
  s.data.foldl (fun acc c => acc * 10 + (c.toNat - 48)) 0

def pantry_add (db : PantryDB) (user : Nat) (form : PantryAddForm) :
    PantryDB × String :=
  let name := pyStrip form.name
  let quantity_raw := pyStrip form.quantity
  let unit := pyStrip form.unit
  let expiry_date := pyStrip form.expiry_date
  let expiry_value : Option String :=
    if expiry_date == "" then none else some expiry_date
  if !(name == "") && pyIsDigit quantity_raw && !(unit == "") then
    (upsert_pantry_item db user name (pyParseNat quantity_raw : Int) unit
      expiry_value, "/pantry")
  else
    (db, "/pantry")

/-! ### Student grade manager (`student_grade_system.py`)

`StudentManager` keeps an insertion-ordered mapping from student id to
`Student` and persists `{id: {"name": ..., "scores": ...}}` to a JSON file.
The mapping is an association list, the file an optional serialized list;
numeric scores are exact rationals.  Raising `ValueError` is modelled by
returning the unchanged manager together with an error message. -/

structure Student where
  student_id : String
  name : String
  scores : List (String × ℚ)
deriving Repr, DecidableEq

/-- `Student.average` (student_grade_system.py:17-21). -/
def Student.average (s : Student) : ℚ :=
  if s.scores.isEmpty then 0
  else (s.scores.map (fun p => p.2)).sum / (s.scores.length : ℚ)

structure StudentManager where
  students : List (String × Student)
  file : Option (List (String × String × List (String × ℚ)))
deriving Repr, DecidableEq

/-- The dictionary written by `save`: only `name` and `scores` per id. -/
def serializeStudents (students : List (String × Student)) :
    List (String × String × List (String × ℚ)) :=
  students.map (fun p => (p.1, p.2.name, p.2.scores))

/-- `StudentManager.save` (student_grade_system.py:45-51). -/
def StudentManager.save (m : StudentManager) : StudentManager :=
  { m with file := some (serializeStudents m.students) }

/-- Rebuilding the students mapping from the raw JSON dictionary, as in
`load` (student_grade_system.py:36-43). -/
def parseStudents (raw : List (String × String × List (String × ℚ))) :
    List (String × Student) :=
  raw.map (fun t => (t.1, ⟨t.1, t.2.1, t.2.2⟩))

/-- `StudentManager.load` (student_grade_system.py:30-43): a missing file
yields an empty mapping. -/
def StudentManager.load (m : StudentManager) : StudentManager :=
  match m.file with
  | none => { m with students := [] }
  | some raw => { m with students := parseStudents raw }

/-- `student_id in self.students`. -/
def hasStudent (students : List (String × Student)) (sid : String) : Bool :=
  students.any (fun p => p.1 == sid)

/-- `StudentManager.add_student` (student_grade_system.py:53-57): raise on a
duplicate id, otherwise insert (a fresh dict key is appended) and save. -/
def StudentManager.add_student (m : StudentManager) (st : Student) :
    StudentManager × Option String :=
  if hasStudent m.students st.student_id then
    (m, some "student id already exists")
  else
    (StudentManager.save
      { m with students := m.students ++ [(st.student_id, st)] }, none)

/-- Python `dict.__setitem__`: replace in place or append. -/
def dictSet (d : List (String × ℚ)) (k : String) (v : ℚ) :
    List (String × ℚ) :=
  if d.any (fun p => p.1 == k) then
    d.map (fun p => if p.1 == k then (k, v) else p)
  else d ++ [(k, v)]

/-- Python `dict.update`. -/
def dictUpdate (d new : List (String × ℚ)) : List (String × ℚ) :=
  new.foldl (fun acc p => dictSet acc p.1 p.2) d

/-- `StudentManager.update_student` (student_grade_system.py:59-72): raise
when the id is absent, otherwise optionally replace the name, merge the
scores, and save. -/
def StudentManager.update_student (m : StudentManager) (sid : String)
    (nm : Option String) (sc : Option (List (String × ℚ))) :
    StudentManager × Option String :=
  if hasStudent m.students sid then
    (StudentManager.save
      { m with students := m.students.map (fun p =>
          if p.1 == sid then
            (p.1,
              { p.2 with
                name := match nm with | none => p.2.name | some v => v,
                scores := match sc with
                  | none => p.2.scores
                  | some v => dictUpdate p.2.scores v })
          else p) }, none)
  else
    (m, some "student id not found")

/-- `StudentManager.delete_student` (student_grade_system.py:74-78). -/
def StudentManager.delete_student (m : StudentManager) (sid : String) :
    StudentManager × Option String :=
  if hasStudent m.students sid then
    (StudentManager.save
      { m with students := m.students.filter (fun p => !(p.1 == sid)) }, none)
  else
    (m, some "student id not found")

/-- `StudentManager.get_student` (student_grade_system.py:83-86): `none`
models the raised `ValueError`. -/
def StudentManager.get_student (m : StudentManager) (sid : String) :
    Option Student :=
  (m.students.find? (fun p => p.1 == sid)).map (fun p => p.2)

/-- `StudentManager.stats` (student_grade_system.py:88-95). -/
def StudentManager.stats (m : StudentManager) : Nat × ℚ :=
  if m.students.isEmpty then (0, 0)
  else
    let averages := m.students.map (fun p => p.2.average)
    (m.students.length, averages.sum / (averages.length : ℚ))

theorem countP_map_eq (p : PantryRow → Bool) (f : PantryRow → PantryRow)
    (hf : ∀ r, p (f r) = p r) :
    ∀ l : List PantryRow, (l.map f).countP p = l.countP p
  | [] => rfl
  | x :: xs => by
      simp only [List.map_cons, List.countP_cons, hf x,
        countP_map_eq p f hf xs]

theorem filter_eq_singleton_of_countP_le_one (l : List PantryRow)
    (p : PantryRow → Bool) (hle : l.countP p ≤ 1) (r0 : PantryRow)
    (hr0 : r0 ∈ l) (hp0 : p r0 = true) : l.filter p = [r0] := by
  have hlen : (l.filter p).length ≤ 1 := by
    rw [← List.countP_eq_length_filter]
    exact hle
  have hmem : r0 ∈ l.filter p := List.mem_filter.mpr ⟨hr0, hp0⟩
  cases hfe : l.filter p with
  | nil =>
    rw [hfe] at hmem
    simp at hmem
  | cons a t =>
    rw [hfe] at hmem hlen
    have ht : t = [] := by
      simp only [List.length_cons] at hlen
      exact List.eq_nil_of_length_eq_zero (by omega)
    subst ht
    simp only [List.mem_singleton] at hmem
    rw [hmem]

theorem countP_fetch (db : PantryDB) (user : Nat) (p : PantryRow → Bool) :
    (fetch_pantry_items db user).countP p =
      (db.rows.filter (fun r => r.user_id == user)).countP p :=
  (sortByIdDesc_perm _).countP_eq p

theorem mem_fetch (db : PantryDB) (user : Nat) (r : PantryRow) :
    r ∈ fetch_pantry_items db user ↔
      r ∈ db.rows.filter (fun r => r.user_id == user) :=
  (sortByIdDesc_perm _).mem_iff

/-- C1 — `upsert_pantry_item`: with no existing `(user, name)` row a fresh
row carrying quantity `q` is appended; when a row with quantity `q0` exists
(and the key is unique beforehand), afterwards exactly one `(user, name)`
row exists, its quantity is `q0 + q`, and its unit and expiry date are the
newly supplied ones. -/
theorem upsert_pantry_item_spec (db : PantryDB) (user : Nat) (name : String)
    (q : Int) (unit : String) (e : Option String) :
    ((∀ r ∈ db.rows, ¬ keyMatch user name r) →
      (upsert_pantry_item db user name q unit e).rows =
        db.rows ++ [⟨db.nextId, user, name, q, unit, e⟩]) ∧
    (∀ q0 r0, r0 ∈ db.rows → keyMatch user name r0 = true → r0.quantity = q0 →
      db.rows.countP (keyMatch user name) ≤ 1 →
      (upsert_pantry_item db user name q unit e).rows.countP
          (keyMatch user name) = 1 ∧
      ∀ r ∈ (upsert_pantry_item db user name q unit e).rows,
        keyMatch user name r = true →
          r.quantity = q0 + q ∧ r.unit = unit ∧ r.expiry_date = e) := by
  constructor
  · intro habs
    have hany : db.rows.any (keyMatch user name) = false := by
      simp only [List.any_eq_false]
      intro r hr
      exact habs r hr
    simp [upsert_pantry_item, hany]
  · intro q0 r0 hr0 hkey hq0 hle
    have hany : db.rows.any (keyMatch user name) = true :=
      List.any_eq_true.mpr ⟨r0, hr0, hkey⟩
    have hrows : (upsert_pantry_item db user name q unit e).rows =
        db.rows.map (fun r =>
          if keyMatch user name r then
            { r with quantity := r.quantity + q, unit := unit,
                     expiry_date := e }
          else r) := by
      simp [upsert_pantry_item, hany]
    have hf : ∀ r : PantryRow, keyMatch user name
        (if keyMatch user name r then
          { r with quantity := r.quantity + q, unit := unit,
                   expiry_date := e }
        else r) = keyMatch user name r := by
      intro r
      cases h : keyMatch user name r with
      | false =>
        rw [if_neg (by simp)]
        exact h
      | true =>
        rw [if_pos rfl]
        exact h
    have hsingle : db.rows.filter (keyMatch user name) = [r0] :=
      filter_eq_singleton_of_countP_le_one db.rows (keyMatch user name) hle
        r0 hr0 hkey
    constructor
    · rw [hrows, countP_map_eq (keyMatch user name) _ hf]
      have hge : 0 < db.rows.countP (keyMatch user name) :=
        List.countP_pos_iff.mpr ⟨r0, hr0, hkey⟩
      omega
    · intro r hr hkr
      rw [hrows] at hr
      rcases List.mem_map.mp hr with ⟨s, hs, hsr⟩
      have hks : keyMatch user name s = true := by
        have := hf s
        rw [hsr, hkr] at this
        exact this.symm
      have hsr0 : s = r0 := by
        have : s ∈ db.rows.filter (keyMatch user name) :=
          List.mem_filter.mpr ⟨hs, hks⟩
        rw [hsingle] at this
        simpa using this
      rw [← hsr, if_pos hks, hsr0, hq0]
      exact ⟨rfl, rfl, rfl⟩

/-- Witness for C1 at a concrete database. -/
theorem upsert_pantry_item_spec_witness :
    (upsert_pantry_item ⟨[⟨1, 7, "egg", 2, "pc", none⟩], 2⟩ 7 "egg" 3 "box"
        (some "2026-01-01")).rows.countP (keyMatch 7 "egg") = 1 :=
  ((upsert_pantry_item_spec ⟨[⟨1, 7, "egg", 2, "pc", none⟩], 2⟩ 7 "egg" 3 "box"
      (some "2026-01-01")).2 2 ⟨1, 7, "egg", 2, "pc", none⟩ (by decide)
      (by decide) (by decide) (by decide)).1

/-- C7 — pantry CRUD round-trip: upserting a fresh `(user, name)` item makes
`fetch_pantry_items user` return exactly one item of that name, carrying the
given quantity, unit and expiry date; deleting by id removes every item with
that id from the user's fetch; both operations leave every other user's
pantry fetch unchanged. -/
theorem pantry_roundtrip_spec (db : PantryDB) (user : Nat) (name : String)
    (q : Int) (unit : String) (e : Option String) (item_id : Nat)
    (hnew : ∀ r ∈ db.rows, keyMatch user name r = false) :
    ((fetch_pantry_items (upsert_pantry_item db user name q unit e)
        user).countP (fun r => r.name == name) = 1 ∧
     (∀ r ∈ fetch_pantry_items (upsert_pantry_item db user name q unit e) user,
        r.name == name → r.quantity = q ∧ r.unit = unit ∧ r.expiry_date = e) ∧
     (∀ u2, u2 ≠ user →
        fetch_pantry_items (upsert_pantry_item db user name q unit e) u2 =
          fetch_pantry_items db u2)) ∧
    ((∀ r ∈ fetch_pantry_items (delete_pantry_item db user item_id) user,
        r.id ≠ item_id) ∧
     (∀ u2, u2 ≠ user →
        fetch_pantry_items (delete_pantry_item db user item_id) u2 =
          fetch_pantry_items db u2)) := by
  have hany : db.rows.any (keyMatch user name) = false := by
    simp only [List.any_eq_false]
    intro r hr
    simp [hnew r hr]
  have h1 : (upsert_pantry_item db user name q unit e).rows =
      db.rows ++ [⟨db.nextId, user, name, q, unit, e⟩] := by
    simp [upsert_pantry_item, hany]
  refine ⟨⟨?_, ?_, ?_⟩, ?_, ?_⟩
  · rw [countP_fetch, h1, List.filter_append]
    have hz : (db.rows.filter (fun r => r.user_id == user)).countP
        (fun r => r.name == name) = 0 := by
      rw [List.countP_eq_zero]
      intro r hr
      rcases List.mem_filter.mp hr with ⟨hmem, hu⟩
      have := hnew r hmem
      simp only [keyMatch] at this
      intro hn
      rw [hu, hn] at this
      simp at this
    simp [hz]
  · intro r hr hname
    rw [mem_fetch, h1] at hr
    rcases List.mem_filter.mp hr with ⟨hmem, _⟩
    rcases List.mem_append.mp hmem with h | h
    · have := hnew r h
      rcases List.mem_filter.mp hr with ⟨_, hu⟩
      simp only [keyMatch] at this
      rw [hu, hname] at this
      simp at this
    · rcases List.mem_singleton.mp h with rfl
      exact ⟨rfl, rfl, rfl⟩
  · intro u2 hu2
    unfold fetch_pantry_items
    rw [h1, List.filter_append]
    have : ([(⟨db.nextId, user, name, q, unit, e⟩ : PantryRow)].filter
        (fun r => r.user_id == u2)) = [] := by
      simp only [List.filter]
      have : (user == u2) = false := by
        simp only [beq_eq_false_iff_ne]
        exact fun h => hu2 h.symm
      simp [this]
    rw [this, List.append_nil]
  · intro r hr
    rw [mem_fetch] at hr
    rcases List.mem_filter.mp hr with ⟨hmem, hu⟩
    simp only [delete_pantry_item] at hmem
    rcases List.mem_filter.mp hmem with ⟨_, hw⟩
    intro hid
    simp only [whereMatch] at hw
    rw [hid, hu] at hw
    simp at hw
  · intro u2 hu2
    unfold fetch_pantry_items
    simp only [delete_pantry_item]
    rw [List.filter_filter]
    congr 1
    apply List.filter_congr
    intro r _
    by_cases hru : r.user_id = u2
    · have : whereMatch item_id user r = false := by
        simp only [whereMatch]
        have : (r.user_id == user) = false := by
          simp only [beq_eq_false_iff_ne]
          rw [hru]
          exact fun h => hu2 h
        simp [this]
      simp [this, hru]
    · simp [hru]

/-- Witness for C7 at a concrete database. -/
theorem pantry_roundtrip_spec_witness :
    (fetch_pantry_items
      (upsert_pantry_item ⟨[⟨1, 9, "salt", 1, "bag", none⟩], 2⟩ 7 "egg" 3 "pc"
        (some "2026-01-01")) 7).countP (fun r => r.name == "egg") = 1 :=
  (pantry_roundtrip_spec ⟨[⟨1, 9, "salt", 1, "bag", none⟩], 2⟩ 7 "egg" 3 "pc"
    (some "2026-01-01") 1 (by decide)).1.1

theorem map_eq_self_of_fix (f : PantryRow → PantryRow) :
    ∀ l : List PantryRow, (∀ r ∈ l, f r = r) → l.map f = l
  | [], _ => rfl
  | x :: xs, h => by
      rw [List.map_cons, h x (by simp), map_eq_self_of_fix f xs
        (fun r hr => h r (by simp [hr]))]

theorem pantryInv_upsert (db : PantryDB) (u : Nat) (n : String) (q : Int)
    (un : String) (e : Option String) (h : PantryInv db) :
    PantryInv (upsert_pantry_item db u n q un e) := by
  obtain ⟨hid, hkey, hlt⟩ := h
  by_cases hany : db.rows.any (keyMatch u n) = true
  · have hrows : (upsert_pantry_item db u n q un e).rows =
        db.rows.map (fun r =>
          if keyMatch u n r then
            { r with quantity := r.quantity + q, unit := un,
                     expiry_date := e }
          else r) := by
      simp [upsert_pantry_item, hany]
    have hnext : (upsert_pantry_item db u n q un e).nextId = db.nextId := by
      simp [upsert_pantry_item, hany]
    refine ⟨?_, ?_, ?_⟩
    · intro i
      rw [hrows, countP_map_eq]
      · exact hid i
      · intro r
        split <;> rfl
    · intro u2 n2
      rw [hrows, countP_map_eq]
      · exact hkey u2 n2
      · intro r
        split <;> rfl
    · intro r hr
      rw [hrows] at hr
      rw [hnext]
      rcases List.mem_map.mp hr with ⟨s, hs, hsr⟩
      have hrid : r.id = s.id := by
        rw [← hsr]
        split <;> rfl
      rw [hrid]
      exact hlt s hs
  · have hanyf : db.rows.any (keyMatch u n) = false :=
      Bool.eq_false_iff.mpr hany
    have hrows : (upsert_pantry_item db u n q un e).rows =
        db.rows ++ [⟨db.nextId, u, n, q, un, e⟩] := by
      simp [upsert_pantry_item, hanyf]
    have hnext : (upsert_pantry_item db u n q un e).nextId = db.nextId + 1 := by
      simp [upsert_pantry_item, hanyf]
    refine ⟨?_, ?_, ?_⟩
    · intro i
      rw [hrows, List.countP_append]
      by_cases hi : db.nextId = i
      · have hz : db.rows.countP (idMatch i) = 0 := by
          rw [List.countP_eq_zero]
          intro r hr
          have hb := hlt r hr
          simp only [idMatch]
          intro hbeq
          have : r.id = i := beq_iff_eq.mp hbeq
          omega
        have ho : ([(⟨db.nextId, u, n, q, un, e⟩ : PantryRow)].countP
            (idMatch i)) ≤ 1 :=
          le_trans (List.countP_le_length _) (by simp)
        omega
      · have ho : ([(⟨db.nextId, u, n, q, un, e⟩ : PantryRow)].countP
            (idMatch i)) = 0 := by
          rw [List.countP_eq_zero]
          intro r hr
          rcases List.mem_singleton.mp hr with rfl
          simp only [idMatch]
          intro hbeq
          exact hi (beq_iff_eq.mp hbeq)
        rw [ho]
        have := hid i
        omega
    · intro u2 n2
      rw [hrows, List.countP_append]
      by_cases hun : u = u2 ∧ n = n2
      · obtain ⟨rfl, rfl⟩ := hun
        have hz : db.rows.countP (keyMatch u n) = 0 := by
          rw [List.countP_eq_zero]
          intro r hr
          have := List.any_eq_false.mp hanyf r hr
          simpa using this
        have ho : ([(⟨db.nextId, u, n, q, un, e⟩ : PantryRow)].countP
            (keyMatch u n)) ≤ 1 :=
          le_trans (List.countP_le_length _) (by simp)
        omega
      · have ho : ([(⟨db.nextId, u, n, q, un, e⟩ : PantryRow)].countP
            (keyMatch u2 n2)) = 0 := by
          rw [List.countP_eq_zero]
          intro r hr
          rcases List.mem_singleton.mp hr with rfl
          simp only [keyMatch]
          intro hbeq
          rcases Bool.and_eq_true_iff.mp hbeq with ⟨h1, h2⟩
          exact hun ⟨beq_iff_eq.mp h1, beq_iff_eq.mp h2⟩
        rw [ho]
        have := hkey u2 n2
        omega
    · intro r hr
      rw [hrows] at hr
      rw [hnext]
      rcases List.mem_append.mp hr with h | h
      · have := hlt r h
        omega
      · rcases List.mem_singleton.mp h with rfl
        exact Nat.lt_succ_self db.nextId

theorem pantryInv_update (db : PantryDB) (u i : Nat) (n : String) (q : Int)
    (un : String) (e : Option String) (h : PantryInv db) :
    PantryInv (update_pantry_item db u i n q un e) := by
  obtain ⟨hid, hkey, hlt⟩ := h
  by_cases hguard : (db.rows.any (whereMatch i u) &&
      db.rows.any (fun r => keyMatch u n r && !(r.id == i))) = true
  · have hsame : update_pantry_item db u i n q un e = db := by
      simp only [update_pantry_item, hguard, if_pos]
    rw [hsame]
    exact ⟨hid, hkey, hlt⟩
  · have hrows : (update_pantry_item db u i n q un e).rows =
        db.rows.map (fun r =>
          if whereMatch i u r then
            { r with name := n, quantity := q, unit := un, expiry_date := e }
          else r) := by
      simp only [update_pantry_item]
      rw [if_neg hguard]
    have hnext : (update_pantry_item db u i n q un e).nextId = db.nextId := by
      simp only [update_pantry_item]
      rw [if_neg hguard]
    refine ⟨?_, ?_, ?_⟩
    · intro j
      rw [hrows, countP_map_eq]
      · exact hid j
      · intro r
        split <;> rfl
    · intro u2 n2
      rcases Bool.and_eq_false_iff.mp (Bool.eq_false_iff.mpr hguard) with
        hw | hnc
      · -- no row matches the WHERE clause: the update is a no-op
        rw [hrows, map_eq_self_of_fix]
        · exact hkey u2 n2
        · intro r hr
          have := List.any_eq_false.mp hw r hr
          rw [if_neg (by simp [this])]
      · -- no second row of the same user carries the new name
        have hnc2 : ∀ r ∈ db.rows, keyMatch u n r = true → r.id = i := by
          intro r hr hk
          have hrr := List.any_eq_false.mp hnc r hr
          by_contra hne
          apply hrr
          rw [hk]
          simp [hne]
        rw [hrows, List.countP_map]
        by_cases hn2 : n2 = n
        · subst hn2
          by_cases hu2 : u2 = u
          · subst hu2
            have hpe : ∀ r ∈ db.rows,
                ((keyMatch u2 n2 ∘ fun r =>
                  if whereMatch i u2 r then
                    { r with name := n2, quantity := q, unit := un,
                             expiry_date := e }
                  else r) r) = whereMatch i u2 r := by
              intro r hr
              simp only [Function.comp_apply]
              by_cases hw : whereMatch i u2 r = true
              · rw [if_pos hw, hw]
                simp only [keyMatch]
                rcases Bool.and_eq_true_iff.mp hw with ⟨_, h2⟩
                simp [h2]
              · rw [if_neg hw]
                cases hk : keyMatch u2 n2 r with
                | false =>
                  exact (Bool.eq_false_iff.mpr hw).symm
                | true =>
                  exfalso
                  apply hw
                  have hrid : r.id = i := hnc2 r hr hk
                  have hru : (r.user_id == u2) = true :=
                    (Bool.and_eq_true_iff.mp hk).1
                  simp only [whereMatch]
                  simp [hrid, hru]
            rw [List.countP_congr (fun r hr => by rw [hpe r hr])]
            calc db.rows.countP (whereMatch i u2)
                ≤ db.rows.countP (idMatch i) :=
                  List.countP_mono_left (fun r _ hw =>
                    (Bool.and_eq_true_iff.mp hw).1)
              _ ≤ 1 := hid i
          · refine le_trans (List.countP_mono_left ?_) (hkey u2 n2)
            intro r _ hp
            simp only [Function.comp_apply] at hp
            by_cases hw : whereMatch i u r = true
            · rw [if_pos hw] at hp
              simp only [keyMatch] at hp
              rcases Bool.and_eq_true_iff.mp hp with ⟨h1, _⟩
              have hru2 : r.user_id = u2 := beq_iff_eq.mp h1
              rcases Bool.and_eq_true_iff.mp hw with ⟨_, h3⟩
              have hru : r.user_id = u := beq_iff_eq.mp h3
              exact absurd (by omega : u2 = u) hu2
            · rw [if_neg hw] at hp
              exact hp
        · refine le_trans (List.countP_mono_left ?_) (hkey u2 n2)
          intro r _ hp
          simp only [Function.comp_apply] at hp
          by_cases hw : whereMatch i u r = true
          · rw [if_pos hw] at hp
            simp only [keyMatch] at hp
            rcases Bool.and_eq_true_iff.mp hp with ⟨_, h2⟩
            exact absurd (beq_iff_eq.mp h2).symm hn2
          · rw [if_neg hw] at hp
            exact hp
    · intro r hr
      rw [hrows] at hr
      rw [hnext]
      rcases List.mem_map.mp hr with ⟨s, hs, hsr⟩
      have hrid : r.id = s.id := by
        rw [← hsr]
        split <;> rfl
      rw [hrid]
      exact hlt s hs

theorem pantryInv_delete (db : PantryDB) (u i : Nat) (h : PantryInv db) :
    PantryInv (delete_pantry_item db u i) := by
  obtain ⟨hid, hkey, hlt⟩ := h
  refine ⟨?_, ?_, ?_⟩
  · intro j
    exact le_trans (List.Sublist.countP_le _ (List.filter_sublist _)) (hid j)
  · intro u2 n2
    exact le_trans (List.Sublist.countP_le _ (List.filter_sublist _))
      (hkey u2 n2)
  · intro r hr
    simp only [delete_pantry_item] at hr
    exact hlt r (List.mem_filter.mp hr).1

theorem pantryInv_apply (db : PantryDB) (op : PantryOp) (h : PantryInv db) :
    PantryInv (applyPantryOp db op) := by
  cases op with
  | upsert u n q un e => exact pantryInv_upsert db u n q un e h
  | update u i n q un e => exact pantryInv_update db u i n q un e h
  | delete u i => exact pantryInv_delete db u i h

theorem pantryInv_reachable (db : PantryDB) (h : PantryReachable db) :
    PantryInv db := by
  induction h with
  | init =>
    refine ⟨?_, ?_, ?_⟩ <;> simp [emptyPantryDB]
  | step db op hdb ih => exact pantryInv_apply db op ih

/-- C4 — pantry key uniqueness: every database state reachable through the
pantry operations has at most one row per `(user_id, name)` pair, and each
of `upsert_pantry_item`, `update_pantry_item`, `delete_pantry_item`
preserves this uniqueness. -/
theorem pantry_key_uniqueness (db : PantryDB) (h : PantryReachable db) :
    (∀ u n, db.rows.countP (keyMatch u n) ≤ 1) ∧
    (∀ op u n, (applyPantryOp db op).rows.countP (keyMatch u n) ≤ 1) :=
  ⟨(pantryInv_reachable db h).2.1,
   fun op => (pantryInv_apply db op (pantryInv_reachable db h)).2.1⟩

/-- Witness for C4 on the initial state and a concrete upsert. -/
theorem pantry_key_uniqueness_witness :
    (applyPantryOp emptyPantryDB
      (PantryOp.upsert 1 "egg" 2 "pc" none)).rows.countP (keyMatch 1 "egg")
      ≤ 1 :=
  (pantry_key_uniqueness emptyPantryDB PantryReachable.init).2
    (PantryOp.upsert 1 "egg" 2 "pc" none) 1 "egg"

theorem healthScore_bounds (n : NutritionFacts) :
    0 ≤ healthScore n ∧ healthScore n ≤ 40 :=
  ⟨le_max_left 0 _, max_le (by norm_num) (min_le_left _ _)⟩

theorem matchScore_bounds (ings : List RecipeIngredient)
    (pantry : List String) :
    0 ≤ matchScore ings pantry ∧ matchScore ings pantry ≤ 60 :=
  ⟨le_max_left 0 _, max_le (by norm_num) (min_le_left _ _)⟩

theorem letterGrade_spec (ts : Int) :
    (letterGrade ts = "A" ↔ 85 ≤ ts) ∧
    (letterGrade ts = "B" ↔ 70 ≤ ts ∧ ts < 85) ∧
    (letterGrade ts = "C" ↔ 55 ≤ ts ∧ ts < 70) ∧
    (letterGrade ts = "D" ↔ ts < 55) := by
  unfold letterGrade
  by_cases h85 : 85 ≤ ts
  · rw [if_pos h85]
    exact ⟨⟨fun _ => h85, fun _ => rfl⟩,
      ⟨fun hg => absurd hg (by decide), fun hc => absurd hc (by omega)⟩,
      ⟨fun hg => absurd hg (by decide), fun hc => absurd hc (by omega)⟩,
      ⟨fun hg => absurd hg (by decide), fun hc => absurd hc (by omega)⟩⟩
  · rw [if_neg h85]
    by_cases h70 : 70 ≤ ts
    · rw [if_pos h70]
      exact ⟨⟨fun hg => absurd hg (by decide), fun hc => absurd hc h85⟩,
        ⟨fun _ => ⟨h70, by omega⟩, fun _ => rfl⟩,
        ⟨fun hg => absurd hg (by decide), fun hc => absurd hc (by omega)⟩,
        ⟨fun hg => absurd hg (by decide), fun hc => absurd hc (by omega)⟩⟩
    · rw [if_neg h70]
      by_cases h55 : 55 ≤ ts
      · rw [if_pos h55]
        exact ⟨⟨fun hg => absurd hg (by decide), fun hc => absurd hc h85⟩,
          ⟨fun hg => absurd hg (by decide), fun hc => absurd hc (by omega)⟩,
          ⟨fun _ => ⟨h55, by omega⟩, fun _ => rfl⟩,
          ⟨fun hg => absurd hg (by decide), fun hc => absurd hc (by omega)⟩⟩
      · rw [if_neg h55]
        exact ⟨⟨fun hg => absurd hg (by decide), fun hc => absurd hc h85⟩,
          ⟨fun hg => absurd hg (by decide), fun hc => absurd hc (by omega)⟩,
          ⟨fun hg => absurd hg (by decide), fun hc => absurd hc (by omega)⟩,
          ⟨fun _ => by omega, fun _ => rfl⟩⟩

theorem contains_eq_of_mem_iff (l1 l2 : List String)
    (h : ∀ x, x ∈ l1 ↔ x ∈ l2) (a : String) :
    l1.contains a = l2.contains a := by
  simp only [List.contains, List.elem_eq_mem]
  exact decide_eq_decide.mpr (h a)

theorem matchedRequired_congr (ings : List RecipeIngredient)
    (pantry pantry2 : List String) (h : ∀ x, x ∈ pantry ↔ x ∈ pantry2) :
    matchedRequired ings pantry = matchedRequired ings pantry2 := by
  unfold matchedRequired
  exact List.filter_congr
    (fun i _ => contains_eq_of_mem_iff pantry pantry2 h i.name)

theorem scoreRecipe_congr (ings : List RecipeIngredient) (n : NutritionFacts)
    (pantry pantry2 : List String) (h : ∀ x, x ∈ pantry ↔ x ∈ pantry2) :
    scoreRecipe ings n pantry2 = scoreRecipe ings n pantry := by
  have hm := matchedRequired_congr ings pantry pantry2 h
  have h1 : matchRate ings pantry2 = matchRate ings pantry := by
    unfold matchRate
    rw [hm]
  have h2 : missingRequired ings pantry2 = missingRequired ings pantry := by
    unfold missingRequired
    rw [hm]
  have h3 : matchScore ings pantry2 = matchScore ings pantry := by
    unfold matchScore
    rw [h1, h2]
  unfold scoreRecipe
  rw [h1, h2, h3, hm]

/-- C2 — the `/recipes` scoring is a pure function of the ingredient list,
the nutrition facts and the set of pantry names: for every recipe passing
the filter, the health score is clamped to `[0, 40]`, the match score is
`max(0, min(60, int(match_rate * 60) - 8 * missing_required))`, the total
is their sum and lies in `[0, 100]`, the letter grade buckets are
`A ↔ total ≥ 85`, `B ↔ 70 ≤ total < 85`, `C ↔ 55 ≤ total < 70`,
`D` otherwise, and the result depends on the pantry only through the set of
its names. -/
theorem recipe_score_spec (ings : List RecipeIngredient) (n : NutritionFacts)
    (pantry : List String) (sc : ScoredRecipe)
    (h : scoreRecipe ings n pantry = some sc) :
    0 ≤ sc.health_score ∧ sc.health_score ≤ 40 ∧
    sc.match_score = max 0 (min 60
      (⌊matchRate ings pantry * 60⌋ - 8 * missingRequired ings pantry)) ∧
    sc.total_score = sc.match_score + sc.health_score ∧
    0 ≤ sc.total_score ∧ sc.total_score ≤ 100 ∧
    (sc.grade = "A" ↔ 85 ≤ sc.total_score) ∧
    (sc.grade = "B" ↔ 70 ≤ sc.total_score ∧ sc.total_score < 85) ∧
    (sc.grade = "C" ↔ 55 ≤ sc.total_score ∧ sc.total_score < 70) ∧
    (sc.grade = "D" ↔ sc.total_score < 55) ∧
    (∀ pantry2, (∀ x, x ∈ pantry ↔ x ∈ pantry2) →
      scoreRecipe ings n pantry2 = some sc) := by
  unfold scoreRecipe at h
  split at h
  · exact absurd h (by simp)
  · have hsc := Option.some.inj h
    subst hsc
    refine ⟨(healthScore_bounds n).1, (healthScore_bounds n).2, ?_, rfl,
      ?_, ?_, ?_, ?_, ?_, ?_, ?_⟩
    · show matchScore ings pantry = _
      unfold matchScore
      rw [Int.mul_comm (missingRequired ings pantry) 8]
    · show 0 ≤ matchScore ings pantry + healthScore n
      have h1 := (matchScore_bounds ings pantry).1
      have h2 := (healthScore_bounds n).1
      omega
    · show matchScore ings pantry + healthScore n ≤ 100
      have h1 := (matchScore_bounds ings pantry).2
      have h2 := (healthScore_bounds n).2
      omega
    · exact (letterGrade_spec _).1
    · exact (letterGrade_spec _).2.1
    · exact (letterGrade_spec _).2.2.1
    · exact (letterGrade_spec _).2.2.2
    · intro pantry2 hmem
      rw [scoreRecipe_congr ings n pantry pantry2 hmem]
      unfold scoreRecipe
      rw [if_neg (by assumption)]

/-- Witness for C2 at a concrete recipe and pantry. -/
theorem recipe_score_spec_witness :
    scoreRecipe [⟨"egg", "required"⟩] ⟨0, 0, 0, 0, 0⟩ [] =
        some ⟨0, 0, 1, 20, 0, 20, "D"⟩ ∧
    ((0 : Int) ≤ (⟨0, 0, 1, 20, 0, 20, "D"⟩ : ScoredRecipe).total_score ∧
      (⟨0, 0, 1, 20, 0, 20, "D"⟩ : ScoredRecipe).total_score ≤ 100) := by
  have hsc : scoreRecipe [⟨"egg", "required"⟩] ⟨0, 0, 0, 0, 0⟩ [] =
      some ⟨0, 0, 1, 20, 0, 20, "D"⟩ := by
    norm_num [scoreRecipe, matchRate, missingRequired, matchScore,
      matchedRequired, requiredIngredients, requiredNameCount, totalRequired,
      healthScore, letterGrade]
  refine ⟨hsc, ?_, ?_⟩
  · exact (recipe_score_spec [⟨"egg", "required"⟩] ⟨0, 0, 0, 0, 0⟩ []
      ⟨0, 0, 1, 20, 0, 20, "D"⟩ hsc).2.2.2.2.1
  · exact (recipe_score_spec [⟨"egg", "required"⟩] ⟨0, 0, 0, 0, 0⟩ []
      ⟨0, 0, 1, 20, 0, 20, "D"⟩ hsc).2.2.2.2.2.1

/-- C3 — `/api/vision/ingredients` on an external-call failure: with a
cached result for the image bytes the response is HTTP 200 carrying the
cached ingredients; without one the status is 500 for a missing API key,
504 for a timeout, and 502 for a non-JSON response or any other vision
error. -/
theorem vision_ingredients_error_spec (bytes : List Nat)
    (preferCache : Bool) (cached : Option (List String)) (e : VisionOutcome)
    (hbytes : bytes ≠ [])
    (he : e = .missingAPIKey ∨ e = .timeout ∨ e = .nonJsonResponse ∨
      e = .visionError) :
    (∀ ings, cached = some ings →
      vision_ingredients (some bytes) preferCache cached e =
        ⟨200, some ings, none, some "Cached"⟩) ∧
    (cached = none → e = .missingAPIKey →
      (vision_ingredients (some bytes) preferCache cached e).status = 500) ∧
    (cached = none → e = .timeout →
      (vision_ingredients (some bytes) preferCache cached e).status = 504) ∧
    (cached = none → (e = .nonJsonResponse ∨ e = .visionError) →
      (vision_ingredients (some bytes) preferCache cached e).status = 502) := by
  have hempty : bytes.isEmpty = false := by
    cases bytes with
    | nil => exact absurd rfl hbytes
    | cons a l => rfl
  refine ⟨?_, ?_, ?_, ?_⟩
  · intro ings hca
    subst hca
    rcases he with rfl | rfl | rfl | rfl <;> cases preferCache <;>
      simp [vision_ingredients, hempty]
  · intro hca he2
    subst hca
    subst he2
    cases preferCache <;> simp [vision_ingredients, hempty]
  · intro hca he2
    subst hca
    subst he2
    cases preferCache <;> simp [vision_ingredients, hempty]
  · intro hca he2
    subst hca
    rcases he2 with rfl | rfl <;> cases preferCache <;>
      simp [vision_ingredients, hempty]

/-- Witness for C3: a timeout with a cached result yields 200 with the
cached ingredients. -/
theorem vision_ingredients_error_spec_witness :
    vision_ingredients (some [1]) false (some ["egg"]) VisionOutcome.timeout =
      ⟨200, some ["egg"], none, some "Cached"⟩ :=
  (vision_ingredients_error_spec [1] false (some ["egg"])
    VisionOutcome.timeout (by decide) (Or.inr (Or.inl rfl))).1 ["egg"] rfl

/-- C8 counterexample — the claim quantifies over the submitted form
values: for the POST with name `"a"`, quantity `" 1"` and unit `"g"`, the
submitted quantity is not a non-empty string of digits, yet the handler
does modify the pantry (the leading whitespace is stripped before
validation). -/
theorem pantry_add_claim_counterexample :
    pyIsDigit " 1" = false ∧
    (pantry_add ⟨[], 1⟩ 1 ⟨"a", " 1", "g", ""⟩).1 ≠ (⟨[], 1⟩ : PantryDB) := by
  constructor
  · decide
  · decide

/-- C8 (amended) — when, after stripping whitespace, the name is empty, the
quantity is not a non-empty string of digits, or the unit is empty, the
`/pantry/add` handler leaves the database unchanged and still redirects to
the pantry page. -/
theorem pantry_add_invalid_spec (db : PantryDB) (user : Nat)
    (form : PantryAddForm)
    (h : pyStrip form.name = "" ∨ pyIsDigit (pyStrip form.quantity) = false ∨
      pyStrip form.unit = "") :
    pantry_add db user form = (db, "/pantry") := by
  rcases h with h | h | h <;> simp [pantry_add, h]

/-- Witness for the amended C8 at a concrete invalid form. -/
theorem pantry_add_invalid_spec_witness :
    pantry_add ⟨[], 1⟩ 1 ⟨"", "1", "g", ""⟩ =
      ((⟨[], 1⟩ : PantryDB), "/pantry") :=
  pantry_add_invalid_spec ⟨[], 1⟩ 1 ⟨"", "1", "g", ""⟩ (Or.inl (by decide))

theorem list_map_eq_self {α : Type} (f : α → α) :
    ∀ l : List α, (∀ a ∈ l, f a = a) → l.map f = l
  | [], _ => rfl
  | x :: xs, h => by
      rw [List.map_cons, h x (by simp), list_map_eq_self f xs
        (fun a ha => h a (by simp [ha]))]

/-- C5 — `add_student` raises exactly when the id is already present; in
the error case the mapping and the file are unchanged; in the success case
the store afterwards contains the new student keyed by its id and the ids
stay unique. -/
theorem add_student_spec (m : StudentManager) (st : Student) :
    (hasStudent m.students st.student_id = true →
      m.add_student st = (m, some "student id already exists")) ∧
    (hasStudent m.students st.student_id = false →
      (m.add_student st).2 = none ∧
      (m.add_student st).1.students = m.students ++ [(st.student_id, st)] ∧
      (m.add_student st).1.file =
        some (serializeStudents (m.students ++ [(st.student_id, st)])) ∧
      ((m.add_student st).1.students.find?
          (fun p => p.1 == st.student_id)).map (fun p => p.2) = some st ∧
      ((m.students.map Prod.fst).Nodup →
        ((m.add_student st).1.students.map Prod.fst).Nodup)) := by
  constructor
  · intro h
    simp [StudentManager.add_student, h]
  · intro h
    have habs : ∀ p ∈ m.students, (p.1 == st.student_id) = false :=
      fun p hp => Bool.eq_false_iff.mpr (List.any_eq_false.mp h p hp)
    have hrw : m.add_student st =
        (StudentManager.save
          { m with students := m.students ++ [(st.student_id, st)] },
         none) := by
      simp [StudentManager.add_student, h]
    rw [hrw]
    refine ⟨rfl, rfl, rfl, ?_, ?_⟩
    · show ((m.students ++ [(st.student_id, st)]).find?
          (fun p => p.1 == st.student_id)).map (fun p => p.2) = some st
      rw [List.find?_append]
      have h1 : m.students.find? (fun p => p.1 == st.student_id) = none :=
        List.find?_eq_none.mpr (fun p hp => by simp [habs p hp])
      rw [h1, Option.none_or, List.find?_singleton]
      simp
    · intro hnd
      show ((m.students ++ [(st.student_id, st)]).map Prod.fst).Nodup
      rw [List.map_append]
      simp only [List.map_cons, List.map_nil]
      rw [List.nodup_append]
      refine ⟨hnd, List.nodup_singleton _, ?_⟩
      intro a ha hb
      rcases List.mem_singleton.mp hb with rfl
      rcases List.mem_map.mp ha with ⟨p, hp, hpa⟩
      have hpf := habs p hp
      rw [beq_eq_false_iff_ne] at hpf
      exact hpf hpa

/-- Witness for C5 at a concrete store. -/
theorem add_student_spec_witness :
    (StudentManager.add_student ⟨[], none⟩ ⟨"s1", "Ann", []⟩).1.students =
      [("s1", ⟨"s1", "Ann", []⟩)] :=
  ((add_student_spec ⟨[], none⟩ ⟨"s1", "Ann", []⟩).2 (by decide)).2.1

/-- C10 — `get_student`, `update_student`, `delete_student` raise exactly
when the id is absent, and in that case the mapping and the file are
unchanged. -/
theorem student_missing_id_spec (m : StudentManager) (sid : String)
    (nm : Option String) (sc : Option (List (String × ℚ))) :
    ((m.update_student sid nm sc).2 = none ↔
      hasStudent m.students sid = true) ∧
    ((m.delete_student sid).2 = none ↔ hasStudent m.students sid = true) ∧
    ((m.get_student sid).isSome = true ↔ hasStudent m.students sid = true) ∧
    (hasStudent m.students sid = false →
      m.update_student sid nm sc = (m, some "student id not found") ∧
      m.delete_student sid = (m, some "student id not found") ∧
      m.get_student sid = none) := by
  have hget : (m.get_student sid).isSome = true ↔
      hasStudent m.students sid = true := by
    simp [StudentManager.get_student, hasStudent, List.any_eq_true]
  by_cases h : hasStudent m.students sid = true
  · refine ⟨?_, ?_, hget, ?_⟩
    · simp [StudentManager.update_student, h]
    · simp [StudentManager.delete_student, h]
    · intro hc
      rw [h] at hc
      exact absurd hc (by simp)
  · have hf : hasStudent m.students sid = false := Bool.eq_false_iff.mpr h
    have hfind : m.students.find? (fun p => p.1 == sid) = none :=
      List.find?_eq_none.mpr (List.any_eq_false.mp hf)
    have hnone : m.get_student sid = none := by
      simp [StudentManager.get_student, hfind]
    refine ⟨?_, ?_, hget, ?_⟩
    · simp [StudentManager.update_student, hf]
    · simp [StudentManager.delete_student, hf]
    · intro _
      refine ⟨?_, ?_, hnone⟩
      · simp [StudentManager.update_student, hf]
      · simp [StudentManager.delete_student, hf]

/-- Witness for C10 at a concrete store and missing id. -/
theorem student_missing_id_spec_witness :
    (StudentManager.update_student ⟨[], none⟩ "s9" none none) =
      ((⟨[], none⟩ : StudentManager), some "student id not found") :=
  ((student_missing_id_spec ⟨[], none⟩ "s9" none none).2.2.2 (by decide)).1

/-- C6 — `Student.average` is the score sum divided by the number of
courses and `0` on an empty mapping; `save` persists exactly the name and
scores per id (never the average); loading what was saved reconstructs the
same students, hence the same derived averages. -/
theorem student_average_save_load_spec (st : Student) (m : StudentManager)
    (hkeys : ∀ p ∈ m.students, (p : String × Student).2.student_id = p.1) :
    (st.scores = [] → st.average = 0) ∧
    (st.scores ≠ [] →
      st.average =
        (st.scores.map (fun p => p.2)).sum / (st.scores.length : ℚ)) ∧
    m.save.file =
      some (m.students.map (fun p => (p.1, p.2.name, p.2.scores))) ∧
    m.save.load.students = m.students := by
  refine ⟨?_, ?_, rfl, ?_⟩
  · intro h
    simp [Student.average, h]
  · intro h
    have hne : st.scores.isEmpty = false := by
      cases hs : st.scores with
      | nil => exact absurd hs h
      | cons a l => rfl
    simp [Student.average, hne]
  · show parseStudents (serializeStudents m.students) = m.students
    unfold parseStudents serializeStudents
    rw [List.map_map]
    apply list_map_eq_self
    intro p hp
    obtain ⟨k, s⟩ := p
    obtain ⟨sid, nm, scs⟩ := s
    have hk := hkeys (k, ⟨sid, nm, scs⟩) hp
    simp only at hk
    simp [hk]

/-- Witness for C6 at a concrete store. -/
theorem student_average_save_load_spec_witness :
    ((⟨[("s1", ⟨"s1", "Ann", [("math", 90)]⟩)], none⟩ :
        StudentManager).save.load).students =
      [("s1", ⟨"s1", "Ann", [("math", 90)]⟩)] :=
  (student_average_save_load_spec ⟨"s1", "Ann", [("math", 90)]⟩
    ⟨[("s1", ⟨"s1", "Ann", [("math", 90)]⟩)], none⟩
    (by decide)).2.2.2

/-- C9 — `stats` is `(0, 0.0)` on an empty store, and otherwise the student
count together with the unweighted mean of the per-student averages (each
student weighted equally, regardless of course count). -/
theorem stats_spec (m : StudentManager) :
    (m.students = [] → m.stats = (0, 0)) ∧
    (m.students ≠ [] →
      m.stats.1 = m.students.length ∧
      m.stats.2 =
        (m.students.map (fun p => p.2.average)).sum /
          (m.students.length : ℚ)) := by
  constructor
  · intro h
    simp [StudentManager.stats, h]
  · intro h
    have hne : m.students.isEmpty = false := by
      cases hs : m.students with
      | nil => exact absurd hs h
      | cons a l => rfl
    constructor
    · simp [StudentManager.stats, hne]
    · simp [StudentManager.stats, hne]

/-- Witness for C9: two students with one and two courses; the result is
the mean of the per-student averages `100` and `0`, namely `50` — not the
mean `100/3` of the three raw scores. -/
theorem stats_spec_witness :
    (StudentManager.stats
      ⟨[("s1", ⟨"s1", "Ann", [("x", 100)]⟩),
        ("s2", ⟨"s2", "Bob", [("y", 0), ("z", 0)]⟩)], none⟩).2 = 50 ∧
    (50 : ℚ) ≠ (100 + 0 + 0) / 3 := by
  have h := (stats_spec
    ⟨[("s1", ⟨"s1", "Ann", [("x", 100)]⟩),
      ("s2", ⟨"s2", "Bob", [("y", 0), ("z", 0)]⟩)], none⟩).2 (by simp)
  constructor
  · rw [h.2]
    norm_num [Student.average]
  · norm_num
